import Mathlib

/-!
Verification of the Wplace Blue Marble auto-fill userscript core
(src/src/main.js, current revision: the class-based AutoFillManager
architecture occupying the first document of the file).

The development shallow-embeds the pure core of the script:
the 64-color palette and nearest-color classification, the owned-color
bitmask decoding, the charge-economy wait-time arithmetic, the
template-diff / edge-classification / ordering / batching pipeline of
getNextPixels, the one-shot fetch-interception protocol, and the
supervisory-loop error handling.  JavaScript numbers that hold integer
values are modelled as Int (or Nat where the source guarantees
non-negativity), the fractional charge count as Rat, JS string keys
"a,b,c,d" as 4-tuples of integers (distinct integer components render
to distinct strings, so key equality coincides), and JS Sets and Maps
as lists with explicit membership tests.  The memoization cache inside
getColorIdFromRGBCached is keyed on exactly the classified triple, so
it is semantically transparent and the classifier is modelled as the
pure function it computes.
-/

namespace Wplace

/-- RGBA quadruple as stored in an ImageData byte array (each component 0..255). -/
structure RGBA where
  r : ℕ
  g : ℕ
  b : ℕ
  a : ℕ
deriving DecidableEq, Repr

/-- The fixed 64-entry palette (main.js colorMap, current version lines 1532-1597),
transcribed verbatim; entry order is ascending ID order, which is also the
iteration order of Object.entries on this object (all keys are array indices). -/
def colorMap : List (ℕ × RGBA) :=
  [ (0, RGBA.mk 0 0 0 0), (1, RGBA.mk 0 0 0 255), (2, RGBA.mk 60 60 60 255)
  , (3, RGBA.mk 120 120 120 255), (4, RGBA.mk 210 210 210 255), (5, RGBA.mk 255 255 255 255)
  , (6, RGBA.mk 96 0 24 255), (7, RGBA.mk 237 28 36 255), (8, RGBA.mk 255 127 39 255)
  , (9, RGBA.mk 246 170 9 255), (10, RGBA.mk 249 221 59 255), (11, RGBA.mk 255 250 188 255)
  , (12, RGBA.mk 14 185 104 255), (13, RGBA.mk 19 230 123 255), (14, RGBA.mk 135 255 94 255)
  , (15, RGBA.mk 12 129 110 255), (16, RGBA.mk 16 174 166 255), (17, RGBA.mk 19 225 190 255)
  , (18, RGBA.mk 40 80 158 255), (19, RGBA.mk 64 147 228 255), (20, RGBA.mk 96 247 242 255)
  , (21, RGBA.mk 107 80 246 255), (22, RGBA.mk 153 177 251 255), (23, RGBA.mk 120 12 153 255)
  , (24, RGBA.mk 170 56 185 255), (25, RGBA.mk 224 159 249 255), (26, RGBA.mk 203 0 122 255)
  , (27, RGBA.mk 236 31 128 255), (28, RGBA.mk 243 141 169 255), (29, RGBA.mk 104 70 52 255)
  , (30, RGBA.mk 149 104 42 255), (31, RGBA.mk 248 178 119 255), (32, RGBA.mk 170 170 170 255)
  , (33, RGBA.mk 165 14 30 255), (34, RGBA.mk 250 128 114 255), (35, RGBA.mk 228 92 26 255)
  , (36, RGBA.mk 214 181 148 255), (37, RGBA.mk 156 132 49 255), (38, RGBA.mk 197 173 49 255)
  , (39, RGBA.mk 232 212 95 255), (40, RGBA.mk 74 107 58 255), (41, RGBA.mk 90 148 74 255)
  , (42, RGBA.mk 132 197 115 255), (43, RGBA.mk 15 121 159 255), (44, RGBA.mk 187 250 242 255)
  , (45, RGBA.mk 125 199 255 255), (46, RGBA.mk 77 49 184 255), (47, RGBA.mk 74 66 132 255)
  , (48, RGBA.mk 122 113 196 255), (49, RGBA.mk 181 174 241 255), (50, RGBA.mk 219 164 99 255)
  , (51, RGBA.mk 209 128 81 255), (52, RGBA.mk 255 197 165 255), (53, RGBA.mk 155 82 73 255)
  , (54, RGBA.mk 209 128 120 255), (55, RGBA.mk 250 182 164 255), (56, RGBA.mk 123 99 82 255)
  , (57, RGBA.mk 156 132 107 255), (58, RGBA.mk 51 57 65 255), (59, RGBA.mk 109 117 141 255)
  , (60, RGBA.mk 179 185 209 255), (61, RGBA.mk 109 100 63 255), (62, RGBA.mk 148 140 107 255)
  , (63, RGBA.mk 205 197 158 255) ]

/-- Squared Euclidean RGB distance (main.js line 1771). -/
def distSq (r g b : ℕ) (c : RGBA) : ℤ :=
  ((r : ℤ) - c.r) * ((r : ℤ) - c.r) + ((g : ℤ) - c.g) * ((g : ℤ) - c.g)
    + ((b : ℤ) - c.b) * ((b : ℤ) - c.b)

/-- Nearest-color scan over the palette entries (main.js lines 1765-1776):
closestColorId starts at 1 (black), minDistanceSquared starts at Infinity
(modelled as none), entry 0 is skipped, and an entry replaces the current
best only on a strictly smaller squared distance (first entry wins ties). -/
def closestLoop (r g b : ℕ) : List (ℕ × RGBA) → ℕ → Option ℤ → ℕ
  | [], best, _ => best
  | (cid, c) :: rest, best, bestDist =>
    if cid = 0 then closestLoop r g b rest best bestDist
    else
      let d := distSq r g b c
      match bestDist with
      | none => closestLoop r g b rest cid (some d)
      | some m => if d < m then closestLoop r g b rest cid (some d)
                  else closestLoop r g b rest best (some m)

/-- Classification of an RGBA quadruple to a palette ID
(main.js getColorIdFromRGBCached, lines 1752-1780): alpha 0 is transparent,
the reserved sentinel RGB (222, 250, 206) is transparent regardless of
distance, otherwise nearest palette color by squared RGB distance. -/
def getColorIdFromRGB (r g b a : ℕ) : ℕ :=
  if a = 0 then 0
  else if r = 222 ∧ g = 250 ∧ b = 206 then 0
  else closestLoop r g b colorMap 1 none

/-- Owned-color decoding (main.js getOwnedColorsFromBitmap, lines 1699-1718).
IDs 0-31 are always owned.  A zero bitmask is falsy and adds nothing.  A
negative bitmask is first converted by the unsigned shift b >>> 0; the
subsequent 32 bit tests coerce their operand to Int32, so in every case bit i
is tested on the canonical residue of the bitmask modulo 2^32.  The final
Array.from(set).sort((a,b) => a-b) is modelled by a stable sort. -/
def getOwnedColorsFromBitmap (extraColorsBitmap : ℤ) : List ℕ :=
  let base := List.range 32
  let withExtra :=
    if extraColorsBitmap = 0 then base
    else
      let ub : ℕ := (extraColorsBitmap % (2 ^ 32 : ℤ)).toNat
      base ++ ((List.range 32).filterMap fun i =>
        if ub.testBit i then some (32 + i) else none)
  List.insertionSort (· ≤ ·) withExtra

/-- Charge snapshot as consumed by ChargeManager: the fractional count and
the per-charge recharge duration in milliseconds (rechargeTime field). -/
structure Charges where
  count : ℚ
  rechargeTime : ℕ
deriving DecidableEq, Repr

/-- ChargeManager.calculateWaitTime (main.js lines 1498-1526).  The charge
limit is read live from the settings input; it is a parameter here.  Note the
JS default chargeRate = charges.rechargeTime || 30000: a zero (or absent)
recharge duration falls back to 30000 ms. -/
def calculateWaitTime (chargeLimit : ℤ) (charges : Charges) (pixelsNeeded : ℤ) : ℤ :=
  let currentCharges : ℤ := ⌊charges.count⌋
  let targetCharges : ℤ := min pixelsNeeded chargeLimit
  let chargesNeeded : ℤ := targetCharges - currentCharges
  let partialCharge : ℚ := charges.count - (⌊charges.count⌋ : ℤ)
  let chargeRate : ℕ := if charges.rechargeTime = 0 then 30000 else charges.rechargeTime
  if chargesNeeded ≤ 1 then
    ⌈(1 - partialCharge) * (chargeRate : ℚ)⌉
  else
    ⌈(1 - partialCharge) * (chargeRate : ℚ)⌉ + (chargesNeeded - 1) * (chargeRate : ℤ)

/-- Wait-time formula exactly as the specification states it (spec section 4.5
and claim C1): target = min(pixelsNeeded, chargeLimit), need = target - floor(c);
if need <= 1 the result is ceil((1 - (c - floor(c))) * R), otherwise that
remainder plus (need - 1) * R, with R the recharge duration of the snapshot. -/
def specWaitTime (chargeLimit : ℤ) (c : ℚ) (rechargeMs : ℕ) (pixelsNeeded : ℤ) : ℤ :=
  let target : ℤ := min pixelsNeeded chargeLimit
  let need : ℤ := target - ⌊c⌋
  let remainder : ℤ := ⌈(1 - (c - (⌊c⌋ : ℤ))) * (rechargeMs : ℚ)⌉
  if need ≤ 1 then remainder
  else remainder + (need - 1) * (rechargeMs : ℤ)

/-- Claim C1, counterexample: the claim asserts the code result equals the
spec formula for every recharge duration R, but at R = 0 the code substitutes
the 30000 ms default (charges.rechargeTime || 30000) while the formula yields
0: for c = 1/2, R = 0, limit = 10, pixelsNeeded = 5 the code returns 135000
and the formula returns 0. -/
theorem calculateWaitTime_formula_fails_at_zero_recharge :
    calculateWaitTime 10 ⟨1/2, 0⟩ 5 = 135000 ∧
    specWaitTime 10 (1/2) 0 5 = 0 ∧
    calculateWaitTime 10 ⟨1/2, 0⟩ 5 ≠ specWaitTime 10 (1/2) 0 5 := by
  refine ⟨?_, ?_, ?_⟩ <;> simp [calculateWaitTime, specWaitTime] <;>
    norm_num [Int.fract]

/-- Claim C1, amended: for every charge limit, snapshot and pixelsNeeded, the
wait time computed by ChargeManager equals the claimed formula with the
recharge duration R replaced by 30000 when the snapshot recharge duration is
0 (or missing); in particular the claimed example c = 5/2, R = 30000,
limit = 10, pixelsNeeded = 5 evaluates to ceil(0.5 * 30000) + 2 * 30000 = 75000. -/
theorem calculateWaitTime_matches_spec_formula :
    (∀ (chargeLimit : ℤ) (charges : Charges) (pixelsNeeded : ℤ),
      calculateWaitTime chargeLimit charges pixelsNeeded =
        specWaitTime chargeLimit charges.count
          (if charges.rechargeTime = 0 then 30000 else charges.rechargeTime)
          pixelsNeeded) ∧
    calculateWaitTime 10 ⟨5/2, 30000⟩ 5 = 75000 ∧
    specWaitTime 10 (5/2) 30000 5 = ⌈((1 : ℚ)/2) * 30000⌉ + 2 * 30000 := by
  refine ⟨fun chargeLimit charges pixelsNeeded => ?_, ?_, ?_⟩
  · simp only [calculateWaitTime, specWaitTime]
  · simp [calculateWaitTime]
    norm_num [Int.fract]
  · simp [specWaitTime]
    norm_num [Int.fract]

/-- Claim C8: classifying the exact RGBA quadruple that the palette assigns
to an ID returns that same ID, for every one of the 64 palette entries
(ID 0 round-trips through the alpha-0 short circuit; the others through the
strict-improvement nearest scan, whose first-wins tie-break is immaterial
because all palette RGB triples are distinct). -/
theorem classify_palette_roundtrip :
    ∀ p ∈ colorMap, getColorIdFromRGB p.2.r p.2.g p.2.b p.2.a = p.1 := by
  decide

/-- Witness for claim C8 at the concrete palette entry for ID 7 (Red). -/
theorem classify_palette_roundtrip_witness :
    getColorIdFromRGB 237 28 36 255 = 7 :=
  classify_palette_roundtrip (7, ⟨237, 28, 36, 255⟩) (by decide)

/-- Membership in the pre-sort owned-color list. -/
lemma mem_ownedColors_raw (b : ℤ) (c : ℕ) :
    (c ∈ List.range 32 ++ ((List.range 32).filterMap fun i =>
        if (b % (2 ^ 32 : ℤ)).toNat.testBit i then some (32 + i) else none)) ↔
      (c < 32 ∨ (32 ≤ c ∧ c < 64 ∧ (b % (2 ^ 32 : ℤ)).toNat.testBit (c - 32))) := by
  simp only [List.mem_append, List.mem_range, List.mem_filterMap]
  constructor
  · rintro (h | ⟨i, hi, hsome⟩)
    · exact Or.inl h
    · by_cases ht : (b % (2 ^ 32 : ℤ)).toNat.testBit i
      · rw [if_pos ht] at hsome
        have hc : 32 + i = c := Option.some.inj hsome
        right
        refine ⟨by omega, by omega, ?_⟩
        have h32 : c - 32 = i := by omega
        rwa [h32]
      · rw [if_neg ht] at hsome
        exact absurd hsome (by simp)
  · rintro (h | ⟨h1, h2, h3⟩)
    · exact Or.inl h
    · right
      refine ⟨c - 32, by omega, ?_⟩
      rw [if_pos h3]
      exact congrArg some (by omega)

/-- Unfolding of the owned-color list for a zero bitmask. -/
lemma getOwned_eq_zero : getOwnedColorsFromBitmap 0 =
    List.insertionSort (· ≤ ·) (List.range 32) := by
  simp [getOwnedColorsFromBitmap]

/-- Unfolding of the owned-color list for a nonzero bitmask. -/
lemma getOwned_eq_nonzero (b : ℤ) (hb : b ≠ 0) : getOwnedColorsFromBitmap b =
    List.insertionSort (· ≤ ·) (List.range 32 ++ ((List.range 32).filterMap fun i =>
      if (b % (2 ^ 32 : ℤ)).toNat.testBit i then some (32 + i) else none)) := by
  simp only [getOwnedColorsFromBitmap]
  rw [if_neg hb]

/-- Claim C9: for every integer bitmask, the owned-color list is sorted
ascending, always contains IDs 0-31, and contains 32+i exactly when bit i of
the bitmask reduced modulo 2^32 (its unsigned 32-bit interpretation) is set;
with the three spec examples ownedColors(0) = 0..31, ownedColors(1) = 0..32,
ownedColors(-1) = 0..63. -/
theorem ownedColors_characterization :
    (∀ b : ℤ,
      List.Chain' (· ≤ ·) (getOwnedColorsFromBitmap b) ∧
      ∀ c : ℕ, c ∈ getOwnedColorsFromBitmap b ↔
        (c < 32 ∨ (32 ≤ c ∧ c < 64 ∧ (b % (2 ^ 32 : ℤ)).toNat.testBit (c - 32)))) ∧
    getOwnedColorsFromBitmap 0 = List.range 32 ∧
    getOwnedColorsFromBitmap 1 = List.range 33 ∧
    getOwnedColorsFromBitmap (-1) = List.range 64 := by
  refine ⟨fun b => ⟨?_, fun c => ?_⟩, by decide, by decide, by decide⟩
  · exact (List.sorted_insertionSort _ _).chain'
  · by_cases hb : b = 0
    · subst hb
      rw [getOwned_eq_zero, (List.perm_insertionSort _ _).mem_iff]
      simp only [List.mem_range]
      constructor
      · exact fun h => Or.inl h
      · rintro (h | ⟨h1, h2, h3⟩)
        · exact h
        · simp at h3
    · rw [getOwned_eq_nonzero b hb, (List.perm_insertionSort _ _).mem_iff]
      exact mem_ownedColors_raw b c

/-! The getNextPixels diff-and-schedule pipeline (main.js lines 1736-2135). -/

/-- Pixel key (chunkX, chunkY, localX, localY); the JS string key
"a,b,c,d" of integers determines and is determined by this tuple. -/
abbrev PixKey := ℤ × ℤ × ℤ × ℤ

/-- A decoded bitmap: dimensions plus a pixel accessor (ImageData contract). -/
structure Bitmap where
  width : ℕ
  height : ℕ
  pixel : ℕ → ℕ → RGBA

/-- One template tile: composite key (chunkX, chunkY, tileX, tileY) plus its
bitmap (none models a falsy bitmap entry, skipped by the loop). -/
structure Tile where
  chunkX : ℤ
  chunkY : ℤ
  tileX : ℤ
  tileY : ℤ
  bitmap : Option Bitmap

/-- Selection mode from the mode button text; every string other than Scan
behaves as Random (the default). -/
inductive Mode
  | Scan
  | Random
deriving DecidableEq, Repr

/-- Template bounding box extents (main.js templateBounds); none models the
initial Infinity values before any sample is seen. -/
structure Bounds where
  minGlobalX : ℤ
  maxGlobalX : ℤ
  minGlobalY : ℤ
  maxGlobalY : ℤ
deriving DecidableEq, Repr

/-- A wrong pixel as pushed onto allPixelsToPlace (main.js lines 1969-1978). -/
structure Pix where
  chunkX : ℤ
  chunkY : ℤ
  finalLogicalX : ℤ
  finalLogicalY : ℤ
  templateColorId : ℕ
  globalX : ℤ
  globalY : ℤ
deriving DecidableEq, Repr

/-- State threaded through the template scan: the template-pixel key set (as
an insertion-ordered duplicate-free list), the wrong-pixel list, the bounds,
the sampled-chunk counter, and whether the early-termination break fired. -/
structure CollectState where
  allTemplatePixels : List PixKey
  pixels : List Pix
  bounds : Option Bounds
  processedChunks : ℕ
  broke : Bool
deriving Repr

/-- Sampled y (or x) offsets of a tile bitmap: 1, 4, 7, ... below the limit
(the for loops start at 1 and step by 3). -/
def samplePositions (n : ℕ) : List ℕ :=
  (List.range n).filter fun i => i % 3 == 1

/-- All sampled (x, y) positions of a tile in loop order (y outer, x inner). -/
def tilePositions (w h : ℕ) : List (ℕ × ℕ) :=
  (samplePositions h).flatMap fun y => (samplePositions w).map fun x => (x, y)

/-- Bounds update for one sampled pixel (main.js lines 1932-1935); the first
sample replaces the Infinity sentinels. -/
def updateBounds : Option Bounds → ℤ → ℤ → Option Bounds
  | none, gx, gy => some ⟨gx, gx, gy, gy⟩
  | some bd, gx, gy =>
    some ⟨min bd.minGlobalX gx, max bd.maxGlobalX gx,
          min bd.minGlobalY gy, max bd.maxGlobalY gy⟩

/-- Evaluation of one sampled template cell (main.js lines 1906-1964): none
when its alpha is 0 (not part of the template); otherwise the pixel key, the
global coordinates, and the wrong-pixel record when the pixel needs placement
(skipped when its color is unowned, or when the live chunk pixel already
matches; a missing chunk or out-of-bounds position needs placement). -/
def sampleAt (chunkAt : ℤ → ℤ → Option Bitmap) (owned : List ℕ) (t : Tile)
    (bm : Bitmap) (x y : ℕ) : Option (PixKey × ℤ × ℤ × Option Pix) :=
  let p := bm.pixel x y
  if p.a = 0 then none
  else
    let templateColorId := getColorIdFromRGB p.r p.g p.b p.a
    let logicalX : ℤ := ((x - 1) / 3 : ℕ)
    let logicalY : ℤ := ((y - 1) / 3 : ℕ)
    let finalLogicalX := t.tileX + logicalX
    let finalLogicalY := t.tileY + logicalY
    let globalX := t.chunkX * 1000 + finalLogicalX
    let globalY := t.chunkY * 1000 + finalLogicalY
    let key : PixKey := (t.chunkX, t.chunkY, finalLogicalX, finalLogicalY)
    if owned ≠ [] ∧ templateColorId ∉ owned then some (key, globalX, globalY, none)
    else
      let needsPlacement :=
        match chunkAt t.chunkX t.chunkY with
        | none => true
        | some cur =>
          if 0 ≤ finalLogicalX ∧ finalLogicalX < (cur.width : ℤ) ∧
              0 ≤ finalLogicalY ∧ finalLogicalY < (cur.height : ℤ) then
            let cp := cur.pixel finalLogicalX.toNat finalLogicalY.toNat
            getColorIdFromRGB cp.r cp.g cp.b cp.a ≠ templateColorId
          else true
      if needsPlacement then
        some (key, globalX, globalY,
          some ⟨t.chunkX, t.chunkY, finalLogicalX, finalLogicalY,
                templateColorId, globalX, globalY⟩)
      else some (key, globalX, globalY, none)

/-- Static configuration of one diff pass. -/
structure PassCfg where
  chunkAt : ℤ → ℤ → Option Bitmap
  owned : List ℕ
  placed : List PixKey
  canEarlyTerminate : Bool
  count : ℕ
  shouldSample : Bool
  templateSize : ℕ
  targetSampleSize : ℕ

/-- Per-sample state transition (main.js lines 1906-1985): bounds and the
template-pixel set are updated for every non-transparent sample; a pixel
needing placement is appended unless its key is in the placed set; the
early-termination break fires when allowed and 2x the budget is collected. -/
def processPos (cfg : PassCfg) (t : Tile) (bm : Bitmap) (st : CollectState)
    (pos : ℕ × ℕ) : CollectState :=
  if st.broke then st
  else
    match sampleAt cfg.chunkAt cfg.owned t bm pos.1 pos.2 with
    | none => st
    | some (key, gx, gy, wrong) =>
      let bounds := updateBounds st.bounds gx gy
      let allT := if key ∈ st.allTemplatePixels then st.allTemplatePixels
                  else st.allTemplatePixels ++ [key]
      match wrong with
      | none => { st with bounds := bounds, allTemplatePixels := allT }
      | some px =>
        if key ∈ cfg.placed then { st with bounds := bounds, allTemplatePixels := allT }
        else
          let pixels := st.pixels ++ [px]
          { st with
            bounds := bounds
            allTemplatePixels := allT
            pixels := pixels
            broke := cfg.canEarlyTerminate && decide (cfg.count * 2 ≤ pixels.length) }

/-- Sampling skip test (main.js lines 1848-1855).  skipInterval is
max(1, floor(templateSize / (targetSampleSize / 100))); a zero
targetSampleSize (budget 0) makes it Infinity in JS, and n % Infinity = n. -/
def skipThisTile (cfg : PassCfg) (processedChunks pixelCount : ℕ) : Bool :=
  let modNonzero : Bool :=
    if cfg.targetSampleSize = 0 then processedChunks != 0
    else processedChunks % (max 1 (cfg.templateSize * 100 / cfg.targetSampleSize)) != 0
  modNonzero && decide (pixelCount > cfg.count)

/-- Per-tile state transition (main.js lines 1843-1988): after a break the
remaining tiles are ignored; falsy bitmaps are skipped; under sampling the
processed-chunk counter advances and the tile may be skipped; otherwise each
sampled position is processed in order. -/
def processTile (cfg : PassCfg) (st : CollectState) (t : Tile) : CollectState :=
  if st.broke then st
  else
    match t.bitmap with
    | none => st
    | some bm =>
      if cfg.shouldSample then
        let st1 := { st with processedChunks := st.processedChunks + 1 }
        if skipThisTile cfg st1.processedChunks st1.pixels.length then st1
        else (tilePositions bm.width bm.height).foldl (processPos cfg t bm) st1
      else (tilePositions bm.width bm.height).foldl (processPos cfg t bm) st

/-- Initial scan state (empty sets, Infinity bounds, counter 0, no break). -/
def initCollectState : CollectState := ⟨[], [], none, 0, false⟩

/-- Pass configuration derived exactly as in main.js lines 1830-1840:
canEarlyTerminate iff the mode is not Scan; targetSampleSize =
min(count * 3, 10000); sampling only for large templates (> 50 tiles) in
early-terminatable modes with budget below 1000. -/
def mkPassCfg (chunkAt : ℤ → ℤ → Option Bitmap) (owned : List ℕ)
    (placed : List PixKey) (mode : Mode) (count : ℕ) (templateSize : ℕ) : PassCfg :=
  let canEarlyTerminate := mode != Mode.Scan
  { chunkAt := chunkAt, owned := owned, placed := placed,
    canEarlyTerminate := canEarlyTerminate, count := count,
    shouldSample := decide (templateSize > 50) && canEarlyTerminate && decide (count < 1000),
    templateSize := templateSize, targetSampleSize := min (count * 3) 10000 }

/-- The template scan phase of getNextPixels: fold over the tiles in sorted
key order (the tiles list is given in that order). -/
def collectPixels (tiles : List Tile) (chunkAt : ℤ → ℤ → Option Bitmap)
    (owned : List ℕ) (placed : List PixKey) (mode : Mode) (count : ℕ) : CollectState :=
  tiles.foldl (processTile (mkPassCfg chunkAt owned placed mode count tiles.length))
    initCollectState

/-- Scan result fields observable by claims that do not mention the
sampling machinery. -/
structure DiffState where
  allTemplatePixels : List PixKey
  pixels : List Pix
  bounds : Option Bounds
deriving Repr

/-- Projection of the scan state onto its observable fields. -/
def CollectState.toDiff (st : CollectState) : DiffState :=
  ⟨st.allTemplatePixels, st.pixels, st.bounds⟩

/-- Modelled from the spec: the exhaustive diff pass with no sampling
shortcut and no early termination (spec section 4.3 step 4: the shortcut
must never be applied when scanline ordering is requested; the output must
remain exhaustive).  Per-sample transition identical to the source pass. -/
def diffPosFull (chunkAt : ℤ → ℤ → Option Bitmap) (owned : List ℕ)
    (placed : List PixKey) (t : Tile) (bm : Bitmap) (st : DiffState)
    (pos : ℕ × ℕ) : DiffState :=
  match sampleAt chunkAt owned t bm pos.1 pos.2 with
  | none => st
  | some (key, gx, gy, wrong) =>
    let bounds := updateBounds st.bounds gx gy
    let allT := if key ∈ st.allTemplatePixels then st.allTemplatePixels
                else st.allTemplatePixels ++ [key]
    match wrong with
    | none => ⟨allT, st.pixels, bounds⟩
    | some px =>
      if key ∈ placed then ⟨allT, st.pixels, bounds⟩
      else ⟨allT, st.pixels ++ [px], bounds⟩

/-- Modelled from the spec: per-tile step of the exhaustive pass (every
sampled position of the tile, in order, unconditionally). -/
def diffTileFull (chunkAt : ℤ → ℤ → Option Bitmap) (owned : List ℕ)
    (placed : List PixKey) (st : DiffState) (t : Tile) : DiffState :=
  match t.bitmap with
  | none => st
  | some bm =>
    (tilePositions bm.width bm.height).foldl (diffPosFull chunkAt owned placed t bm) st

/-- Modelled from the spec: exhaustive scan over every tile and every sampled
position, in order, with no shortcut. -/
def collectPixelsExhaustive (tiles : List Tile) (chunkAt : ℤ → ℤ → Option Bitmap)
    (owned : List ℕ) (placed : List PixKey) : DiffState :=
  tiles.foldl (diffTileFull chunkAt owned placed) ⟨[], [], none⟩

/-- Cardinal neighbor offsets checked first (main.js lines 2004-2009). -/
def cardinalOffsets : List (ℤ × ℤ) := [(0, -1), (-1, 0), (1, 0), (0, 1)]

/-- Diagonal neighbor offsets checked second (main.js lines 2036-2041). -/
def diagonalOffsets : List (ℤ × ℤ) := [(-1, -1), (1, -1), (-1, 1), (1, 1)]

/-- Pixel key of a neighboring global coordinate (main.js lines 2015-2027):
chunk by floor division by 1000 (truncation for non-negatives, Math.floor for
negatives — both are floor division), local part by subtraction. -/
def neighborKey (gx gy : ℤ) (d : ℤ × ℤ) : PixKey :=
  let nx := gx + d.1
  let ny := gy + d.2
  let ncx := if 0 ≤ nx then nx / 1000 else Int.fdiv nx 1000
  let ncy := if 0 ≤ ny then ny / 1000 else Int.fdiv ny 1000
  (ncx, ncy, nx - ncx * 1000, ny - ncy * 1000)

/-- Edge classification (main.js isEdgePixel, lines 1991-2063): true when the
global coordinate is at a bounding-box extent, else when some cardinal
neighbor key is missing from the template-pixel set, else when some diagonal
neighbor key is missing; the early-return chain of the source is this
short-circuit disjunction. -/
def isEdgePixel (bounds : Option Bounds) (allT : List PixKey) (px : Pix) : Bool :=
  let gx := px.globalX
  let gy := px.globalY
  let atBounds : Bool :=
    match bounds with
    | none => false
    | some bd => gx == bd.minGlobalX || gx == bd.maxGlobalX ||
                 gy == bd.minGlobalY || gy == bd.maxGlobalY
  atBounds ||
    (cardinalOffsets.any fun d => !(decide (neighborKey gx gy d ∈ allT))) ||
    (diagonalOffsets.any fun d => !(decide (neighborKey gx gy d ∈ allT)))

/-- All eight neighbor offsets, cardinals first. -/
def offsets8 : List (ℤ × ℤ) := cardinalOffsets ++ diagonalOffsets

/-- Modelled from the spec (claim C3 wording): a wrong pixel is an edge pixel
iff its global coordinate lies on the min or max X or Y extent of the
bounding box, or at least one of its 8 neighboring global coordinates is
absent from allTemplatePixels. -/
def specIsEdge (bounds : Option Bounds) (allT : List PixKey) (px : Pix) : Prop :=
  (∃ bd, bounds = some bd ∧
    (px.globalX = bd.minGlobalX ∨ px.globalX = bd.maxGlobalX ∨
     px.globalY = bd.minGlobalY ∨ px.globalY = bd.maxGlobalY)) ∨
  ∃ d ∈ offsets8, neighborKey px.globalX px.globalY d ∉ allT

/-- Scanline order on wrong pixels: by globalY, then globalX (the comparator
of main.js lines 2082-2089). -/
def pixLeP (p q : Pix) : Prop :=
  p.globalY < q.globalY ∨ (p.globalY = q.globalY ∧ p.globalX ≤ q.globalX)

instance : DecidableRel pixLeP := fun p q => by unfold pixLeP; infer_instance

instance : IsTotal Pix pixLeP := ⟨fun p q => by unfold pixLeP; omega⟩

instance : IsTrans Pix pixLeP := ⟨fun p q r => by unfold pixLeP; omega⟩

/-- Priority ordering (main.js lines 2065-2107): edge pixels first, interior
second; each part sorted by (globalY, globalX) in Scan mode, or shuffled in
Random mode.  Array.prototype.sort is stable (ES2019) and a stable sort for a
total preorder has a unique result, so the stable insertion sort models it;
the Fisher-Yates shuffles driven by Math.random are abstracted by the
shuffle oracle. -/
def prioritizedPixels (mode : Mode) (shuffle : List Pix → List Pix)
    (st : CollectState) : List Pix :=
  let edgePixels := st.pixels.filter (isEdgePixel st.bounds st.allTemplatePixels)
  let nonEdgePixels := st.pixels.filter
    fun px => !(isEdgePixel st.bounds st.allTemplatePixels px)
  match mode with
  | Mode.Scan =>
    List.insertionSort pixLeP edgePixels ++ List.insertionSort pixLeP nonEdgePixels
  | Mode.Random => shuffle edgePixels ++ shuffle nonEdgePixels

/-- Chunk batch: chunk coordinates with the scheduled (x, y, colorId) triples. -/
abbrev ChunkGroup := (ℤ × ℤ) × List (ℤ × ℤ × ℕ)

/-- Chunk coordinate pair of a wrong pixel. -/
def pixChunk (px : Pix) : ℤ × ℤ := (px.chunkX, px.chunkY)

/-- Scheduled triple of a wrong pixel. -/
def pixEntry (px : Pix) : ℤ × ℤ × ℕ :=
  (px.finalLogicalX, px.finalLogicalY, px.templateColorId)

/-- Insertion of one pixel into the chunk-keyed group map (main.js lines
2114-2122): JS objects with comma keys preserve insertion order, so a new
chunk appends a group at the end and an existing chunk appends the pixel to
its (unique) group. -/
def addToGroups : List ChunkGroup → Pix → List ChunkGroup
  | [], px => [(pixChunk px, [pixEntry px])]
  | g :: gs, px =>
    if g.1 = pixChunk px then (g.1, g.2 ++ [pixEntry px]) :: gs
    else g :: addToGroups gs px

/-- Batching stage (main.js lines 2109-2123): walk the ordered list until
count pixels are collected, grouping into the chunk map. -/
def groupPixels (count : ℕ) (l : List Pix) : List ChunkGroup :=
  (l.take count).foldl addToGroups []

/-- Result record of getNextPixels (main.js lines 2129-2134). -/
structure PassResult where
  chunkGroups : List ChunkGroup
  totalRemainingPixels : ℕ
  totalPixels : ℕ
deriving DecidableEq, Repr

/-- The full diff-and-schedule pass (main.js getNextPixels): scan, classify
edges, order, batch; reports the total wrong-pixel and template-pixel
counts alongside the scheduled chunk groups. -/
def getNextPixels (tiles : List Tile) (chunkAt : ℤ → ℤ → Option Bitmap)
    (owned : List ℕ) (placed : List PixKey) (mode : Mode)
    (shuffle : List Pix → List Pix) (count : ℕ) : PassResult :=
  let st := collectPixels tiles chunkAt owned placed mode count
  { chunkGroups := groupPixels count (prioritizedPixels mode shuffle st),
    totalRemainingPixels := st.pixels.length,
    totalPixels := st.allTemplatePixels.length }

/-- Colors array of an outgoing placement request body for a batch
(main.js lines 1308 and 1371: colors = pixels.map of the colorId slot). -/
def buildPlacementColors (pixels : List (ℤ × ℤ × ℕ)) : List ℕ :=
  pixels.map fun e => e.2.2

/-- Coords array of an outgoing placement request body for a batch
(main.js lines 1309 and 1372: coords = pixels.flatMap of x and y). -/
def buildPlacementCoords (pixels : List (ℤ × ℤ × ℕ)) : List ℤ :=
  pixels.flatMap fun e => [e.1, e.2.1]

/-! Concrete inputs used by counterexamples and scenario checks. -/

/-- A chunk-state provider with every chunk missing (every fetch failed or
404: treated as an empty chunk, so every template pixel needs placement). -/
def noChunks : ℤ → ℤ → Option Bitmap := fun _ _ => none

/-- A fully opaque black bitmap of the given square size. -/
def blackBitmap (n : ℕ) : Bitmap := ⟨n, n, fun _ _ => RGBA.mk 0 0 0 255⟩

/-- A template tile whose 3x3 bitmap holds exactly one logical pixel. -/
def singlePixelTile : Tile := ⟨0, 0, 0, 0, some (blackBitmap 3)⟩

/-- A template tile whose 9x9 bitmap holds a fully-filled 3x3 logical block. -/
def block3Tile : Tile := ⟨0, 0, 0, 0, some (blackBitmap 9)⟩

/-- Existence over a list append splits into a disjunction. -/
lemma existsMemAppend {α : Type} {P : α → Prop} {A B : List α} :
    (∃ d ∈ A ++ B, P d) ↔ (∃ d ∈ A, P d) ∨ (∃ d ∈ B, P d) := by
  constructor
  · rintro ⟨d, hd, hp⟩
    rcases List.mem_append.mp hd with h | h
    · exact Or.inl ⟨d, h, hp⟩
    · exact Or.inr ⟨d, h, hp⟩
  · rintro (⟨d, hd, hp⟩ | ⟨d, hd, hp⟩)
    · exact ⟨d, List.mem_append.mpr (Or.inl hd), hp⟩
    · exact ⟨d, List.mem_append.mpr (Or.inr hd), hp⟩

/-- Claim C3 helper: the source edge test agrees with the claimed
characterization (bounding-box extent, or one of the 8 neighbor keys absent). -/
lemma isEdgePixel_iff (bounds : Option Bounds) (allT : List PixKey) (px : Pix) :
    isEdgePixel bounds allT px = true ↔ specIsEdge bounds allT px := by
  have hsplit : specIsEdge bounds allT px ↔
      (((∃ bd, bounds = some bd ∧ (px.globalX = bd.minGlobalX ∨
          px.globalX = bd.maxGlobalX ∨ px.globalY = bd.minGlobalY ∨
          px.globalY = bd.maxGlobalY)) ∨
        (∃ d ∈ cardinalOffsets, neighborKey px.globalX px.globalY d ∉ allT)) ∨
        (∃ d ∈ diagonalOffsets, neighborKey px.globalX px.globalY d ∉ allT)) := by
    unfold specIsEdge offsets8
    rw [existsMemAppend]
    exact or_assoc.symm
  rw [hsplit]
  unfold isEdgePixel
  simp only [Bool.or_eq_true, List.any_eq_true, Bool.not_eq_true', decide_eq_false_iff_not]
  apply or_congr _ Iff.rfl
  apply or_congr _ Iff.rfl
  cases bounds with
  | none => simp
  | some bd =>
    simp
    tauto

/-- Claim C3: a wrong pixel is classified as edge iff its global coordinate
is at a min or max extent of the template bounding box or one of its 8
neighboring global coordinates is absent from allTemplatePixels; a
single-pixel template yields exactly one edge pixel, and a fully-filled 3x3
block yields 8 edge pixels and 1 interior pixel. -/
theorem edge_classification :
    (∀ (bounds : Option Bounds) (allT : List PixKey) (px : Pix),
      isEdgePixel bounds allT px = true ↔ specIsEdge bounds allT px) ∧
    ((let st := collectPixels [singlePixelTile] noChunks [] [] Mode.Scan 10
      (st.pixels.filter (isEdgePixel st.bounds st.allTemplatePixels)).length = 1 ∧
      (st.pixels.filter fun px =>
        !(isEdgePixel st.bounds st.allTemplatePixels px)).length = 0) ∧
     (let st := collectPixels [block3Tile] noChunks [] [] Mode.Scan 100
      (st.pixels.filter (isEdgePixel st.bounds st.allTemplatePixels)).length = 8 ∧
      (st.pixels.filter fun px =>
        !(isEdgePixel st.bounds st.allTemplatePixels px)).length = 1)) :=
  ⟨isEdgePixel_iff, by decide, by decide⟩

/-- Scan mode turns both shortcut mechanisms off (main.js line 1833: early
termination is impossible in Scan mode, and sampling requires it). -/
lemma mkPassCfg_scan_flags (chunkAt : ℤ → ℤ → Option Bitmap) (owned : List ℕ)
    (placed : List PixKey) (count ts : ℕ) :
    (mkPassCfg chunkAt owned placed Mode.Scan count ts).canEarlyTerminate = false ∧
    (mkPassCfg chunkAt owned placed Mode.Scan count ts).shouldSample = false := by
  simp [mkPassCfg]

/-- With early termination disabled, one sample step never breaks and agrees
with the exhaustive sample step on the observable fields. -/
lemma processPos_noET (cfg : PassCfg) (hET : cfg.canEarlyTerminate = false)
    (t : Tile) (bm : Bitmap) (st : CollectState) (pos : ℕ × ℕ)
    (hb : st.broke = false) :
    (processPos cfg t bm st pos).broke = false ∧
    (processPos cfg t bm st pos).toDiff =
      diffPosFull cfg.chunkAt cfg.owned cfg.placed t bm st.toDiff pos := by
  unfold processPos diffPosFull
  cases hs : sampleAt cfg.chunkAt cfg.owned t bm pos.1 pos.2 with
  | none => simp [hb, hs, CollectState.toDiff]
  | some v =>
    obtain ⟨key, gx, gy, wrong⟩ := v
    cases wrong with
    | none => simp [hb, hs, CollectState.toDiff]
    | some px =>
      by_cases hp : key ∈ cfg.placed <;>
        simp [hb, hs, hp, hET, CollectState.toDiff]

/-- Fold of the sample step over a position list, with early termination
disabled, agrees with the exhaustive fold. -/
lemma foldl_processPos_noET (cfg : PassCfg) (hET : cfg.canEarlyTerminate = false)
    (t : Tile) (bm : Bitmap) :
    ∀ (ps : List (ℕ × ℕ)) (st : CollectState), st.broke = false →
      ((ps.foldl (processPos cfg t bm) st).broke = false ∧
       (ps.foldl (processPos cfg t bm) st).toDiff =
         ps.foldl (diffPosFull cfg.chunkAt cfg.owned cfg.placed t bm) st.toDiff) := by
  intro ps
  induction ps with
  | nil => exact fun st h => ⟨h, rfl⟩
  | cons p ps ih =>
    intro st h
    obtain ⟨h1, h2⟩ := processPos_noET cfg hET t bm st p h
    obtain ⟨h3, h4⟩ := ih (processPos cfg t bm st p) h1
    refine ⟨h3, ?_⟩
    rw [List.foldl_cons, List.foldl_cons, ← h2, h4]

/-- Fold of the tile step, with both shortcuts disabled, agrees with the
exhaustive tile fold. -/
lemma foldl_processTile_noET (cfg : PassCfg) (hET : cfg.canEarlyTerminate = false)
    (hS : cfg.shouldSample = false) :
    ∀ (tiles : List Tile) (st : CollectState), st.broke = false →
      ((tiles.foldl (processTile cfg) st).broke = false ∧
       (tiles.foldl (processTile cfg) st).toDiff =
         tiles.foldl (diffTileFull cfg.chunkAt cfg.owned cfg.placed) st.toDiff) := by
  intro tiles
  induction tiles with
  | nil => exact fun st h => ⟨h, rfl⟩
  | cons t ts ih =>
    intro st h
    have hstep : (processTile cfg st t).broke = false ∧
        (processTile cfg st t).toDiff =
          diffTileFull cfg.chunkAt cfg.owned cfg.placed st.toDiff t := by
      unfold processTile diffTileFull
      cases t.bitmap with
      | none => simp [h, CollectState.toDiff]
      | some bm =>
        simp only [h, Bool.false_eq_true, if_false, hS]
        exact foldl_processPos_noET cfg hET t bm _ st h
    obtain ⟨h1, h2⟩ := hstep
    obtain ⟨h3, h4⟩ := ih (processTile cfg st t) h1
    refine ⟨h3, ?_⟩
    rw [List.foldl_cons, List.foldl_cons, ← h2, h4]

/-- Scan-mode collection equals the exhaustive diff pass. -/
lemma collect_scan_exhaustive (tiles : List Tile) (chunkAt : ℤ → ℤ → Option Bitmap)
    (owned : List ℕ) (placed : List PixKey) (count : ℕ) :
    (collectPixels tiles chunkAt owned placed Mode.Scan count).toDiff =
      collectPixelsExhaustive tiles chunkAt owned placed := by
  obtain ⟨hET, hS⟩ := mkPassCfg_scan_flags chunkAt owned placed count tiles.length
  unfold collectPixels collectPixelsExhaustive
  exact (foldl_processTile_noET _ hET hS tiles initCollectState rfl).2

/-- Claim C2: in Scan mode the diff-and-schedule pass is exhaustive (the
sampling and early-termination shortcuts never apply), its ordered output is
the edge pixels sorted by (globalY, globalX) ascending followed by the
interior pixels sorted the same way (each part a permutation of the
respective wrong pixels), and the pass is deterministic: it does not depend
on the random shuffle oracle, so two runs on identical input are identical. -/
theorem scan_mode_exhaustive_sorted_deterministic :
    (∀ (tiles : List Tile) (chunkAt : ℤ → ℤ → Option Bitmap) (owned : List ℕ)
        (placed : List PixKey) (count : ℕ) (sh₁ sh₂ : List Pix → List Pix),
      getNextPixels tiles chunkAt owned placed Mode.Scan sh₁ count =
        getNextPixels tiles chunkAt owned placed Mode.Scan sh₂ count) ∧
    (∀ (tiles : List Tile) (chunkAt : ℤ → ℤ → Option Bitmap) (owned : List ℕ)
        (placed : List PixKey) (count : ℕ),
      (collectPixels tiles chunkAt owned placed Mode.Scan count).toDiff =
        collectPixelsExhaustive tiles chunkAt owned placed) ∧
    (∀ (tiles : List Tile) (chunkAt : ℤ → ℤ → Option Bitmap) (owned : List ℕ)
        (placed : List PixKey) (count : ℕ) (sh : List Pix → List Pix),
      let st := collectPixels tiles chunkAt owned placed Mode.Scan count
      let edge := st.pixels.filter (isEdgePixel st.bounds st.allTemplatePixels)
      let inner := st.pixels.filter
        fun px => !(isEdgePixel st.bounds st.allTemplatePixels px)
      prioritizedPixels Mode.Scan sh st =
        List.insertionSort pixLeP edge ++ List.insertionSort pixLeP inner ∧
      List.Sorted pixLeP (List.insertionSort pixLeP edge) ∧
      List.Sorted pixLeP (List.insertionSort pixLeP inner) ∧
      (List.insertionSort pixLeP edge).Perm edge ∧
      (List.insertionSort pixLeP inner).Perm inner) := by
  refine ⟨fun _ _ _ _ _ _ _ => rfl, collect_scan_exhaustive, ?_⟩
  intro tiles chunkAt owned placed count sh
  exact ⟨rfl, List.sorted_insertionSort pixLeP _, List.sorted_insertionSort pixLeP _,
    List.perm_insertionSort pixLeP _, List.perm_insertionSort pixLeP _⟩

/-- Modelled from the spec (claim C4 wording): group the taken pixels
consecutively by (chunkX, chunkY), preserving relative order; a new batch
starts whenever the chunk of the next pixel differs from the current batch. -/
def consecGroups : List Pix → List ChunkGroup
  | [] => []
  | px :: rest =>
    match consecGroups rest with
    | [] => [(pixChunk px, [pixEntry px])]
    | g :: gs =>
      if g.1 = pixChunk px then (g.1, pixEntry px :: g.2) :: gs
      else (pixChunk px, [pixEntry px]) :: g :: gs

def firstOccGroups : List Pix → List ChunkGroup
  | [] => []
  | px :: rest =>
    (pixChunk px, pixEntry px ::
        (rest.filter fun q => decide (pixChunk q = pixChunk px)).map pixEntry) ::
      firstOccGroups (rest.filter fun q => decide (pixChunk q ≠ pixChunk px))
termination_by l => l.length
decreasing_by
  simp only [List.length_cons]
  exact Nat.lt_succ_of_le (List.length_filter_le _ _)

def extendGroups (gs : List ChunkGroup) (l : List Pix) : List ChunkGroup :=
  gs.map fun g => (g.1, g.2 ++ (l.filter fun q => decide (pixChunk q = g.1)).map pixEntry)

def scheduledCount (gs : List ChunkGroup) : ℕ := (gs.map fun g => g.2.length).sum

lemma addToGroups_not_mem (gs : List ChunkGroup) (px : Pix)
    (h : pixChunk px ∉ gs.map Prod.fst) :
    addToGroups gs px = gs ++ [(pixChunk px, [pixEntry px])] := by
  induction gs with
  | nil => rfl
  | cons g gs ih =>
    simp only [List.map_cons, List.mem_cons] at h
    push_neg at h
    obtain ⟨h1, h2⟩ := h
    unfold addToGroups
    rw [if_neg fun hh => h1 hh.symm, ih h2, List.cons_append]

lemma addToGroups_keys_of_mem (gs : List ChunkGroup) (px : Pix)
    (h : pixChunk px ∈ gs.map Prod.fst) :
    (addToGroups gs px).map Prod.fst = gs.map Prod.fst := by
  induction gs with
  | nil => simp at h
  | cons g gs ih =>
    by_cases hg : g.1 = pixChunk px
    · unfold addToGroups
      rw [if_pos hg]
      simp
    · have h' : pixChunk px ∈ gs.map Prod.fst := by
        simp only [List.map_cons, List.mem_cons] at h
        rcases h with h | h
        · exact absurd h.symm hg
        · exact h
      unfold addToGroups
      rw [if_neg hg]
      simp [ih h']

lemma extendGroups_nil (gs : List ChunkGroup) : extendGroups gs [] = gs := by
  simp [extendGroups]

lemma extendGroups_cons_of_ne (gs : List ChunkGroup) (px : Pix) (l : List Pix)
    (h : ∀ g ∈ gs, g.1 ≠ pixChunk px) :
    extendGroups gs (px :: l) = extendGroups gs l := by
  unfold extendGroups
  apply List.map_congr_left
  intro g hg
  rw [List.filter_cons]
  have hd : (decide (pixChunk px = g.1)) = false := by
    simp only [decide_eq_false_iff_not]
    exact fun hh => (h g hg) hh.symm
  rw [hd]
  simp

lemma extendGroups_absorb (l : List Pix) (px : Pix) :
    ∀ gs : List ChunkGroup, (gs.map Prod.fst).Nodup → pixChunk px ∈ gs.map Prod.fst →
      extendGroups (addToGroups gs px) l = extendGroups gs (px :: l) := by
  intro gs
  induction gs with
  | nil => intro _ h; simp at h
  | cons g gs ih =>
    intro hnd hmem
    rw [List.map_cons] at hnd
    have hnd' := List.nodup_cons.mp hnd
    by_cases hg : g.1 = pixChunk px
    · unfold addToGroups
      rw [if_pos hg]
      unfold extendGroups
      simp only [List.map_cons]
      congr 1
      · have hc : decide (pixChunk px = g.1) = true := by simp [hg]
        rw [List.filter_cons, hc]
        simp
      · have hne : ∀ g' ∈ gs, g'.1 ≠ pixChunk px := by
          intro g' hg' hq
          apply hnd'.1
          rw [hg, ← hq]
          exact List.mem_map_of_mem Prod.fst hg'
        have := extendGroups_cons_of_ne gs px l hne
        unfold extendGroups at this
        exact this.symm
    · have hmem' : pixChunk px ∈ gs.map Prod.fst := by
        simp only [List.map_cons, List.mem_cons] at hmem
        rcases hmem with h | h
        · exact absurd h.symm hg
        · exact h
      unfold addToGroups
      rw [if_neg hg]
      unfold extendGroups
      simp only [List.map_cons]
      congr 1
      · have hc : decide (pixChunk px = g.1) = false := by
          simp only [decide_eq_false_iff_not]
          exact fun hh => hg hh.symm
        rw [List.filter_cons, hc]
        simp
      · exact ih hnd'.2 hmem'

lemma foldl_addToGroups_eq (l : List Pix) :
    ∀ gs : List ChunkGroup, (gs.map Prod.fst).Nodup →
      List.foldl addToGroups gs l =
        extendGroups gs l ++
          firstOccGroups (l.filter fun q => decide (pixChunk q ∉ gs.map Prod.fst)) := by
  induction l with
  | nil =>
    intro gs _
    simp [extendGroups_nil, firstOccGroups]
  | cons px l ih =>
    intro gs hnd
    rw [List.foldl_cons]
    by_cases hmem : pixChunk px ∈ gs.map Prod.fst
    · have hkeys := addToGroups_keys_of_mem gs px hmem
      have hnd2 : ((addToGroups gs px).map Prod.fst).Nodup := by rw [hkeys]; exact hnd
      rw [ih _ hnd2, hkeys, extendGroups_absorb l px gs hnd hmem]
      congr 2
      rw [List.filter_cons]
      have hc : decide (pixChunk px ∉ gs.map Prod.fst) = false := by simp [hmem]
      rw [hc]
      simp
    · rw [addToGroups_not_mem gs px hmem]
      have hkeys' : ((gs ++ [(pixChunk px, [pixEntry px])]).map Prod.fst) =
          gs.map Prod.fst ++ [pixChunk px] := by simp
      have hnd2 : (((gs ++ [(pixChunk px, [pixEntry px])]).map Prod.fst)).Nodup := by
        rw [hkeys']
        simp [List.nodup_append, hnd, hmem]
      rw [ih _ hnd2]
      -- left side pieces
      have hext : extendGroups (gs ++ [(pixChunk px, [pixEntry px])]) l =
          extendGroups gs l ++
            [(pixChunk px, pixEntry px ::
              (l.filter fun q => decide (pixChunk q = pixChunk px)).map pixEntry)] := by
        unfold extendGroups
        rw [List.map_append]
        simp
      have hfilter1 : (l.filter fun q =>
          decide (pixChunk q ∉ (gs ++ [(pixChunk px, [pixEntry px])]).map Prod.fst)) =
          ((l.filter fun q => decide (pixChunk q ∉ gs.map Prod.fst)).filter
            fun q => decide (pixChunk q ≠ pixChunk px)) := by
        rw [List.filter_filter]
        apply List.filter_congr
        intro q _
        rw [hkeys']
        by_cases h1 : pixChunk q ∈ List.map Prod.fst gs <;>
          by_cases h2 : pixChunk q = pixChunk px <;>
            simp [h1, h2]
      -- right side pieces
      have hrs : ((px :: l).filter fun q => decide (pixChunk q ∉ gs.map Prod.fst)) =
          px :: (l.filter fun q => decide (pixChunk q ∉ gs.map Prod.fst)) := by
        rw [List.filter_cons]
        have hc : decide (pixChunk px ∉ gs.map Prod.fst) = true := by simp [hmem]
        rw [hc]
        simp
      have hfo : firstOccGroups ((px :: l).filter
            fun q => decide (pixChunk q ∉ gs.map Prod.fst)) =
          (pixChunk px, pixEntry px ::
            (((l.filter fun q => decide (pixChunk q ∉ gs.map Prod.fst)).filter
              fun q => decide (pixChunk q = pixChunk px)).map pixEntry)) ::
          firstOccGroups ((l.filter fun q => decide (pixChunk q ∉ gs.map Prod.fst)).filter
            fun q => decide (pixChunk q ≠ pixChunk px)) := by
        rw [hrs]
        rw [firstOccGroups]
      have hfilter2 : ((l.filter fun q => decide (pixChunk q ∉ gs.map Prod.fst)).filter
          fun q => decide (pixChunk q = pixChunk px)) =
          (l.filter fun q => decide (pixChunk q = pixChunk px)) := by
        rw [List.filter_filter]
        apply List.filter_congr
        intro q _
        by_cases hq : pixChunk q = pixChunk px
        · by_cases hm2 : pixChunk q ∈ gs.map Prod.fst
          · exact absurd (hq ▸ hm2) hmem
          · rw [hq] at hm2
            simp [hq, hm2]
        · simp [hq]
      rw [extendGroups_cons_of_ne gs px l ?hne, hfo, hext, hfilter1, hfilter2]
      · rw [List.append_assoc]
        rfl
      case hne =>
        intro g hg hq
        exact hmem (hq ▸ List.mem_map_of_mem Prod.fst hg)

lemma groupPixels_eq_firstOcc (count : ℕ) (l : List Pix) :
    groupPixels count l = firstOccGroups (l.take count) := by
  unfold groupPixels
  rw [foldl_addToGroups_eq _ [] (by simp)]
  simp [extendGroups]

lemma scheduledCount_addToGroups (gs : List ChunkGroup) (px : Pix) :
    scheduledCount (addToGroups gs px) = scheduledCount gs + 1 := by
  induction gs with
  | nil => simp [addToGroups, scheduledCount]
  | cons g gs ih =>
    unfold addToGroups
    by_cases hg : g.1 = pixChunk px
    · rw [if_pos hg]
      simp [scheduledCount]
      omega
    · rw [if_neg hg]
      simp [scheduledCount] at ih ⊢
      omega

lemma scheduledCount_foldl (l : List Pix) :
    ∀ gs : List ChunkGroup,
      scheduledCount (List.foldl addToGroups gs l) = scheduledCount gs + l.length := by
  induction l with
  | nil => intro gs; simp
  | cons px l ih =>
    intro gs
    rw [List.foldl_cons, ih, scheduledCount_addToGroups]
    simp
    omega

lemma scheduledCount_groupPixels (count : ℕ) (l : List Pix) :
    scheduledCount (groupPixels count l) = min count l.length := by
  unfold groupPixels
  rw [scheduledCount_foldl]
  simp [scheduledCount, List.length_take]

/-- Demo pixels for the batching counterexample: chunk (0,0), chunk (1,0),
then chunk (0,0) again, as a scanline row crossing two chunks produces. -/
def pixA1 : Pix := ⟨0, 0, 5, 5, 1, 5, 5⟩

/-- Second demo pixel, in the neighboring chunk (1,0). -/
def pixB : Pix := ⟨1, 0, 2, 5, 1, 1002, 5⟩

/-- Third demo pixel, back in chunk (0,0). -/
def pixA2 : Pix := ⟨0, 0, 6, 5, 1, 6, 5⟩

/-- Claim C4, counterexample: for the ordered list [A, B, A2] with chunks
(0,0), (1,0), (0,0) and budget 3, the code merges the two non-adjacent
chunk-(0,0) pixels into a single batch (two groups in first-occurrence
order), while the claimed consecutive grouping yields three batches; the
scheduler therefore does not group consecutively. -/
theorem grouping_not_consecutive :
    groupPixels 3 [pixA1, pixB, pixA2] =
      [((0, 0), [(5, 5, 1), (6, 5, 1)]), ((1, 0), [(2, 5, 1)])] ∧
    consecGroups ([pixA1, pixB, pixA2].take 3) =
      [((0, 0), [(5, 5, 1)]), ((1, 0), [(2, 5, 1)]), ((0, 0), [(6, 5, 1)])] ∧
    groupPixels 3 [pixA1, pixB, pixA2] ≠ consecGroups ([pixA1, pixB, pixA2].take 3) :=
  ⟨by decide, by decide, by decide⟩

/-- Claim C4, amended: the scheduler takes min(N, length) pixels from the
front of the ordered list (so at most N pixels are scheduled), groups them by
(chunkX, chunkY) with one batch per distinct chunk in first-occurrence order,
each batch listing its pixels in their relative order, and reports the total
count of wrong pixels found, which is the length of the full wrong list and
is independent of N. -/
theorem grouping_first_occurrence :
    (∀ (count : ℕ) (l : List Pix),
      groupPixels count l = firstOccGroups (l.take count)) ∧
    (∀ (count : ℕ) (l : List Pix),
      scheduledCount (groupPixels count l) = min count l.length) ∧
    (∀ (tiles : List Tile) (chunkAt : ℤ → ℤ → Option Bitmap) (owned : List ℕ)
        (placed : List PixKey) (mode : Mode) (sh : List Pix → List Pix) (count : ℕ),
      (getNextPixels tiles chunkAt owned placed mode sh count).chunkGroups =
        groupPixels count
          (prioritizedPixels mode sh (collectPixels tiles chunkAt owned placed mode count)) ∧
      (getNextPixels tiles chunkAt owned placed mode sh count).totalRemainingPixels =
        (collectPixels tiles chunkAt owned placed mode count).pixels.length) :=
  ⟨groupPixels_eq_firstOcc, scheduledCount_groupPixels, fun _ _ _ _ _ _ _ => ⟨rfl, rfl⟩⟩

/-- A bitmap consisting entirely of the reserved sentinel RGB (222, 250, 206)
at full alpha. -/
def sentinelBitmap : Bitmap := ⟨3, 3, fun _ _ => RGBA.mk 222 250 206 255⟩

/-- A one-logical-pixel template tile of the sentinel color at tile offset
(10, 20) of chunk (0, 0). -/
def sentinelTile : Tile := ⟨0, 0, 10, 20, some sentinelBitmap⟩

/-- Claim C5, counterexample: a template pixel with the sentinel RGB
classifies to ID 0, ID 0 is in the always-owned set, and over a missing
chunk the pixel is scheduled: the pass returns a chunk-batch containing the
triple (10, 20, 0), and the outgoing request body colors array for that
batch contains 0.  A pixel with desired color ID 0 therefore does appear in
a scheduled chunk-batch and in an outgoing colors array. -/
theorem transparent_pixel_scheduled :
    (getNextPixels [sentinelTile] noChunks (getOwnedColorsFromBitmap 0) []
        Mode.Scan (fun l => l) 5).chunkGroups = [((0, 0), [(10, 20, 0)])] ∧
    ((getNextPixels [sentinelTile] noChunks (getOwnedColorsFromBitmap 0) []
        Mode.Scan (fun l => l) 5).chunkGroups.map
      fun g => buildPlacementColors g.2) = [[0]] :=
  ⟨by decide, by decide⟩

/-- The nearest-color scan never returns ID 0 when started from a nonzero
best: entry 0 is skipped and every update installs a nonzero ID. -/
lemma closestLoop_ne_zero (r g b : ℕ) :
    ∀ (l : List (ℕ × RGBA)) (best : ℕ) (d : Option ℤ), best ≠ 0 →
      closestLoop r g b l best d ≠ 0 := by
  intro l
  induction l with
  | nil =>
    intro best d h
    simpa [closestLoop] using h
  | cons e rest ih =>
    intro best d h
    obtain ⟨cid, c⟩ := e
    by_cases hc : cid = 0
    · simpa [closestLoop, hc] using ih best d h
    · cases d with
      | none => simpa [closestLoop, hc] using ih cid _ hc
      | some m =>
        by_cases hlt : distSq r g b c < m
        · simpa [closestLoop, hc, hlt] using ih cid _ hc
        · simpa [closestLoop, hc, hlt] using ih best _ h

/-- Claim C5, amended: color ID 0 pixels can be scheduled and sent; for a
non-transparent template pixel the classifier returns 0 exactly when its RGB
is the reserved sentinel (222, 250, 206) (which the code deliberately places
as transparent, per its own comment); the sentinel demo template indeed
contributes its pixel to the wrong-pixel count. -/
theorem transparent_only_from_sentinel :
    (∀ r g b a : ℕ, a ≠ 0 →
      (getColorIdFromRGB r g b a = 0 ↔ (r = 222 ∧ g = 250 ∧ b = 206))) ∧
    (getNextPixels [sentinelTile] noChunks (getOwnedColorsFromBitmap 0) []
        Mode.Scan (fun l => l) 5).totalRemainingPixels = 1 := by
  constructor
  · intro r g b a ha
    unfold getColorIdFromRGB
    rw [if_neg ha]
    by_cases hs : r = 222 ∧ g = 250 ∧ b = 206
    · simp [hs]
    · rw [if_neg hs]
      constructor
      · intro h
        exact absurd h (closestLoop_ne_zero r g b colorMap 1 none one_ne_zero)
      · intro h
        exact absurd h hs
  · decide

/-- Witness for claim C5 (amended) at the concrete sentinel quadruple. -/
theorem transparent_only_from_sentinel_witness :
    getColorIdFromRGB 222 250 206 255 = 0 :=
  (transparent_only_from_sentinel.1 222 250 206 255 (by decide)).mpr ⟨rfl, rfl, rfl⟩

/-! RequestInterceptor (main.js interceptFetchRequest, lines 2138-2190) and
the supervisory-loop catch handler (lines 900-918). -/

/-- Character-list test that the pattern occurs at the head. -/
def startsWithChars : List Char → List Char → Bool
  | [], _ => true
  | _ :: _, [] => false
  | p :: ps, c :: cs => p == c && startsWithChars ps cs

/-- Character-list substring occurrence test. -/
def containsChars (pat : List Char) : List Char → Bool
  | [] => startsWithChars pat []
  | c :: cs => startsWithChars pat (c :: cs) || containsChars pat cs

/-- Substring test modelling url.includes(pat). -/
def containsSub (pat s : String) : Bool := containsChars pat.toList s.toList

/-- One outgoing request as seen by the patched fetch: the uppercased method
(options.method defaulting to GET), the first argument when it is a string
(none models a Request object, which is never intercepted), and whether the
parsed JSON body carries the security token field t. -/
structure Req where
  method : String
  url : Option String
  hasToken : Bool
deriving DecidableEq, Repr

/-- The interception predicate (main.js line 2152): a POST whose string URL
contains the pixel-placement path. -/
def reqMatches (r : Req) : Bool :=
  r.method == "POST" &&
    (match r.url with
     | some u => containsSub "/pixel/" u
     | none => false)

/-- Observable interceptor state: whether the page fetch is still the patched
wrapper, and the interceptionActive flag. -/
structure FetchState where
  patched : Bool
  interceptionActive : Bool
deriving DecidableEq, Repr

/-- Outcome of one request through the patched fetch: passthrough forwards
the arguments unmodified to the original fetch; interceptedSent rewrites the
body and URL and sends the modified request through the original fetch;
interceptedNoToken is the hard error raised when the matched body has no
security token t — the promise is rejected with the
could-not-find-security-token error and no modified request is sent. -/
inductive FetchOutcome
  | passthrough
  | interceptedSent
  | interceptedNoToken
deriving DecidableEq, Repr

/-- State right after interceptFetchRequest installs the wrapper. -/
def armedState : FetchState := ⟨true, true⟩

/-- One request through the wrapper (main.js lines 2143-2180): with the
wrapper restored or the flag cleared every request passes through; a
matching POST is intercepted, and on both the success path and the error
path interceptionActive is cleared and unsafeWindow.fetch is restored to the
original synchronously before anything else runs (lines 2165-2166 and
2172-2173). -/
def interceptFetchStep (s : FetchState) (r : Req) : FetchOutcome × FetchState :=
  if !s.patched then (FetchOutcome.passthrough, s)
  else if !s.interceptionActive then (FetchOutcome.passthrough, s)
  else if reqMatches r then
    if r.hasToken then (FetchOutcome.interceptedSent, ⟨false, false⟩)
    else (FetchOutcome.interceptedNoToken, ⟨false, false⟩)
  else (FetchOutcome.passthrough, s)

/-- Trace of a request sequence through the interceptor: each entry is the
outcome together with the state immediately afterwards. -/
def runIntercept (s : FetchState) : List Req → List (FetchOutcome × FetchState)
  | [] => []
  | r :: rs =>
    let step := interceptFetchStep s r
    step :: runIntercept step.2 rs

/-- A passthrough outcome leaves the interceptor state unchanged. -/
lemma interceptFetchStep_pass_state (s : FetchState) (r : Req)
    (h : (interceptFetchStep s r).1 = FetchOutcome.passthrough) :
    (interceptFetchStep s r).2 = s := by
  unfold interceptFetchStep at *
  by_cases h1 : s.patched <;> by_cases h2 : s.interceptionActive <;>
    by_cases h3 : reqMatches r <;> by_cases h4 : r.hasToken <;>
      simp_all

/-- An interception outcome restores the original fetch. -/
lemma interceptFetchStep_intercept_state (s : FetchState) (r : Req)
    (h : (interceptFetchStep s r).1 ≠ FetchOutcome.passthrough) :
    (interceptFetchStep s r).2 = ⟨false, false⟩ := by
  unfold interceptFetchStep at *
  by_cases h1 : s.patched <;> by_cases h2 : s.interceptionActive <;>
    by_cases h3 : reqMatches r <;> by_cases h4 : r.hasToken <;>
      simp_all

/-- With the wrapper removed, every request passes through unchanged. -/
lemma interceptFetchStep_unpatched (s : FetchState) (r : Req)
    (h : s.patched = false) :
    interceptFetchStep s r = (FetchOutcome.passthrough, s) := by
  simp [interceptFetchStep, h]

/-- With the wrapper removed, the trace holds no interception. -/
lemma runIntercept_count_unpatched (s : FetchState) (h : s.patched = false) :
    ∀ reqs : List Req,
      (((runIntercept s reqs).map Prod.fst).countP
        fun o => o != FetchOutcome.passthrough) = 0 := by
  intro reqs
  induction reqs with
  | nil => rfl
  | cons r rs ih =>
    simp only [runIntercept, interceptFetchStep_unpatched s r h, List.map_cons,
      List.countP_cons, ih]
    simp

/-- From any state, at most one request of a trace is intercepted. -/
lemma runIntercept_count_le_one (s : FetchState) :
    ∀ reqs : List Req,
      (((runIntercept s reqs).map Prod.fst).countP
        fun o => o != FetchOutcome.passthrough) ≤ 1 := by
  intro reqs
  induction reqs generalizing s with
  | nil => simp [runIntercept]
  | cons r rs ih =>
    simp only [runIntercept, List.map_cons, List.countP_cons]
    by_cases h : (interceptFetchStep s r).1 = FetchOutcome.passthrough
    · rw [h]
      simpa using ih (interceptFetchStep s r).2
    · rw [interceptFetchStep_intercept_state s r h]
      have h0 := runIntercept_count_unpatched ⟨false, false⟩ rfl rs
      rw [h0]
      simp [h]

/-- A non-matching request always passes through. -/
lemma interceptFetchStep_nonmatch (s : FetchState) (r : Req)
    (h : reqMatches r = false) :
    interceptFetchStep s r = (FetchOutcome.passthrough, s) := by
  unfold interceptFetchStep
  by_cases h1 : s.patched <;> by_cases h2 : s.interceptionActive <;>
    simp [h1, h2, h]

/-- Every non-matching request of a trace passes through. -/
lemma runIntercept_nonmatch_pass (s : FetchState) :
    ∀ reqs : List Req,
      ∀ pr ∈ reqs.zip ((runIntercept s reqs).map Prod.fst),
        reqMatches pr.1 = false → pr.2 = FetchOutcome.passthrough := by
  intro reqs
  induction reqs generalizing s with
  | nil =>
    intro pr h
    simp [runIntercept] at h
  | cons r rs ih =>
    intro pr hpr hm
    simp only [runIntercept, List.map_cons, List.zip_cons_cons, List.mem_cons] at hpr
    rcases hpr with h | h
    · subst h
      simp only at hm
      rw [show (interceptFetchStep s r).1 = FetchOutcome.passthrough from
        congrArg Prod.fst (interceptFetchStep_nonmatch s r hm)]
    · exact ih (interceptFetchStep s r).2 pr h hm

/-- After any intercepted entry of a trace, the fetch is restored. -/
lemma runIntercept_restored (s : FetchState) :
    ∀ reqs : List Req,
      ∀ e ∈ runIntercept s reqs,
        e.1 ≠ FetchOutcome.passthrough → e.2 = ⟨false, false⟩ := by
  intro reqs
  induction reqs generalizing s with
  | nil =>
    intro e h
    simp [runIntercept] at h
  | cons r rs ih =>
    intro e he hne
    simp only [runIntercept, List.mem_cons] at he
    rcases he with h | h
    · subst h
      exact interceptFetchStep_intercept_state s r hne
    · exact ih (interceptFetchStep s r).2 e h hne

/-- Claim C6: from the armed state, over any sequence of outgoing requests,
at most one request is ever intercepted; every request that is not a POST to
the pixel-placement path passes through to the original fetch untouched; and
immediately after an interception fires (success or error) the page fetch is
restored to the original. -/
theorem interceptor_one_shot :
    ∀ reqs : List Req,
      ((((runIntercept armedState reqs).map Prod.fst).countP
          fun o => o != FetchOutcome.passthrough) ≤ 1) ∧
      (∀ pr ∈ reqs.zip ((runIntercept armedState reqs).map Prod.fst),
        reqMatches pr.1 = false → pr.2 = FetchOutcome.passthrough) ∧
      (∀ e ∈ runIntercept armedState reqs,
        e.1 ≠ FetchOutcome.passthrough → e.2 = ⟨false, false⟩) :=
  fun reqs => ⟨runIntercept_count_le_one armedState reqs,
    runIntercept_nonmatch_pass armedState reqs,
    runIntercept_restored armedState reqs⟩

/-- Demo request sequence: a non-matching GET to the pixel path, a matching
tokened POST, then another matching POST arriving after restoration. -/
def demoReqs : List Req :=
  [ ⟨"GET", some "https://backend.wplace.live/s0/pixel/1/2", true⟩
  , ⟨"POST", some "https://backend.wplace.live/s0/pixel/1/2", true⟩
  , ⟨"POST", some "https://backend.wplace.live/s0/pixel/3/4", true⟩ ]

/-- Witness for claim C6: the intercepted entry of the demo trace has the
fetch restored immediately afterwards. -/
theorem interceptor_one_shot_witness :
    ((FetchOutcome.interceptedSent, (⟨false, false⟩ : FetchState)) :
        FetchOutcome × FetchState).2 = (⟨false, false⟩ : FetchState) :=
  (interceptor_one_shot demoReqs).2.2 (FetchOutcome.interceptedSent, ⟨false, false⟩)
    (by decide) (by decide)

/-- Supervisory-loop state visible to the catch handler: the running flag and
the session already-placed set. -/
structure LoopState where
  isRunning : Bool
  placedPixelsSession : List PixKey
deriving DecidableEq, Repr

/-- The catch handler of AutoFillManager.runMainLoop (main.js lines 912-916):
the cycle error is logged and surfaced to the UI, the loop sleeps 10000 ms
and continues; the running flag is untouched, and the placement path that
threw never reaches code that marks pixels placed. -/
def runMainLoopCatch (s : LoopState) : LoopState × ℕ := (s, 10000)

/-- Claim C7: a matching pixel-placement request whose JSON body has no
security token t makes the interception fail with the no-security-token hard
error (outcome interceptedNoToken — in particular nothing is sent, since the
outcome is not interceptedSent), the page fetch is restored at once, and the
errored cycle leaves the supervisory loop running with its already-placed
set unchanged, retrying after the fixed 10000 ms delay. -/
theorem missing_token_fails_cycle_continues :
    ∀ r : Req, reqMatches r = true → r.hasToken = false →
      (interceptFetchStep armedState r =
        (FetchOutcome.interceptedNoToken, ⟨false, false⟩) ∧
       ∀ s : LoopState,
         (runMainLoopCatch s).1.isRunning = s.isRunning ∧
         (runMainLoopCatch s).1.placedPixelsSession = s.placedPixelsSession ∧
         (runMainLoopCatch s).2 = 10000) := by
  intro r hm ht
  refine ⟨?_, fun s => ⟨rfl, rfl, rfl⟩⟩
  simp [interceptFetchStep, armedState, hm, ht]

/-- A concrete tokenless POST to the placement path. -/
def demoNoTokenReq : Req :=
  ⟨"POST", some "https://backend.wplace.live/s0/pixel/4/7", false⟩

/-- Witness for claim C7 at the concrete tokenless placement request. -/
theorem missing_token_witness :
    interceptFetchStep armedState demoNoTokenReq =
      (FetchOutcome.interceptedNoToken, ⟨false, false⟩) :=
  (missing_token_fails_cycle_continues demoNoTokenReq (by decide) rfl).1

/-- The session-level already-placed set (main.js line 1531).  The current
version contains no statement that adds an element to it: the class-based
placement path (AutoFillManager.placePixels, PixelPlacer) never touches it,
and its only use is the membership test in getNextPixels line 1967; it is
therefore the constant empty set for the whole session. -/
def placedPixels : List PixKey := []

/-- The sample step as it would read with the already-placed exclusion
removed; identical to processPos except that a pixel needing placement is
always pushed. -/
def processPosNoPlaced (cfg : PassCfg) (t : Tile) (bm : Bitmap)
    (st : CollectState) (pos : ℕ × ℕ) : CollectState :=
  if st.broke then st
  else
    match sampleAt cfg.chunkAt cfg.owned t bm pos.1 pos.2 with
    | none => st
    | some (key, gx, gy, wrong) =>
      let bounds := updateBounds st.bounds gx gy
      let allT := if key ∈ st.allTemplatePixels then st.allTemplatePixels
                  else st.allTemplatePixels ++ [key]
      match wrong with
      | none => { st with bounds := bounds, allTemplatePixels := allT }
      | some px =>
        let pixels := st.pixels ++ [px]
        { st with
          bounds := bounds
          allTemplatePixels := allT
          pixels := pixels
          broke := cfg.canEarlyTerminate && decide (cfg.count * 2 ≤ pixels.length) }

/-- Tile step of the exclusion-free pass. -/
def processTileNoPlaced (cfg : PassCfg) (st : CollectState) (t : Tile) :
    CollectState :=
  if st.broke then st
  else
    match t.bitmap with
    | none => st
    | some bm =>
      if cfg.shouldSample then
        let st1 := { st with processedChunks := st.processedChunks + 1 }
        if skipThisTile cfg st1.processedChunks st1.pixels.length then st1
        else (tilePositions bm.width bm.height).foldl (processPosNoPlaced cfg t bm) st1
      else (tilePositions bm.width bm.height).foldl (processPosNoPlaced cfg t bm) st

/-- Collection phase of the exclusion-free pass. -/
def collectPixelsNoPlaced (tiles : List Tile) (chunkAt : ℤ → ℤ → Option Bitmap)
    (owned : List ℕ) (mode : Mode) (count : ℕ) : CollectState :=
  tiles.foldl (processTileNoPlaced (mkPassCfg chunkAt owned [] mode count tiles.length))
    initCollectState

/-- The full pass with the already-placed exclusion removed. -/
def getNextPixelsNoPlaced (tiles : List Tile) (chunkAt : ℤ → ℤ → Option Bitmap)
    (owned : List ℕ) (mode : Mode) (shuffle : List Pix → List Pix)
    (count : ℕ) : PassResult :=
  let st := collectPixelsNoPlaced tiles chunkAt owned mode count
  { chunkGroups := groupPixels count (prioritizedPixels mode shuffle st),
    totalRemainingPixels := st.pixels.length,
    totalPixels := st.allTemplatePixels.length }

/-- With an empty placed set the sample step and the exclusion-free sample
step coincide. -/
lemma processPos_empty_placed (cfg : PassCfg) (hp : cfg.placed = [])
    (t : Tile) (bm : Bitmap) :
    processPos cfg t bm = processPosNoPlaced cfg t bm := by
  funext st pos
  by_cases hb : st.broke
  · unfold processPos processPosNoPlaced
    simp [hb]
  · unfold processPos processPosNoPlaced
    cases hs : sampleAt cfg.chunkAt cfg.owned t bm pos.1 pos.2 with
    | none => simp [hb, hs]
    | some v =>
      obtain ⟨key, gx, gy, wrong⟩ := v
      cases wrong with
      | none => simp [hb, hs]
      | some px => simp [hb, hs, hp]

/-- With an empty placed set the tile steps coincide. -/
lemma processTile_empty_placed (cfg : PassCfg) (hp : cfg.placed = []) :
    processTile cfg = processTileNoPlaced cfg := by
  funext st t
  unfold processTile processTileNoPlaced
  simp only [processPos_empty_placed cfg hp]

/-- With an empty placed set the collection phases coincide. -/
lemma collect_empty_placed (tiles : List Tile) (chunkAt : ℤ → ℤ → Option Bitmap)
    (owned : List ℕ) (mode : Mode) (count : ℕ) :
    collectPixels tiles chunkAt owned [] mode count =
      collectPixelsNoPlaced tiles chunkAt owned mode count := by
  unfold collectPixels collectPixelsNoPlaced
  rw [processTile_empty_placed _ (by simp [mkPassCfg])]

/-- Claim C10: the session already-placed set of the current version is only
ever read (no operation adds to it), so it is the constant empty set, and
the already-placed exclusion never removes a pixel from the wrong-pixel
list: on the file constant placedPixels the pass is identical to the pass
with the exclusion removed. -/
theorem placedPixels_stays_empty :
    placedPixels = ([] : List PixKey) ∧
    ∀ (tiles : List Tile) (chunkAt : ℤ → ℤ → Option Bitmap) (owned : List ℕ)
        (mode : Mode) (sh : List Pix → List Pix) (count : ℕ),
      getNextPixels tiles chunkAt owned placedPixels mode sh count =
        getNextPixelsNoPlaced tiles chunkAt owned mode sh count := by
  refine ⟨rfl, fun tiles chunkAt owned mode sh count => ?_⟩
  unfold getNextPixels getNextPixelsNoPlaced placedPixels
  rw [collect_empty_placed]

/-- Witness for claim C1 (amended) at a concrete snapshot with a nonzero
recharge duration. -/
theorem calculateWaitTime_matches_spec_formula_witness :
    calculateWaitTime 7 ⟨3/2, 400⟩ 9 =
      specWaitTime 7 (3/2) (if (400 : ℕ) = 0 then 30000 else 400) 9 :=
  calculateWaitTime_matches_spec_formula.1 7 ⟨3/2, 400⟩ 9

/-- Witness for claim C2 at a concrete (empty) template. -/
theorem scan_mode_witness :
    (collectPixels ([] : List Tile) noChunks [] [] Mode.Scan 0).toDiff =
      collectPixelsExhaustive [] noChunks [] [] :=
  scan_mode_exhaustive_sorted_deterministic.2.1 [] noChunks [] [] 0

/-- Witness for claim C3 at a concrete pixel with an absent neighbor. -/
theorem edge_classification_witness :
    isEdgePixel none [] pixA1 = true :=
  (edge_classification.1 none [] pixA1).mpr
    (Or.inr ⟨(0, -1), by decide, by decide⟩)

/-- Witness for claim C4 (amended) at a concrete two-pixel list. -/
theorem grouping_first_occurrence_witness :
    groupPixels 2 [pixA1, pixB] = firstOccGroups ([pixA1, pixB].take 2) :=
  grouping_first_occurrence.1 2 [pixA1, pixB]

/-- Witness for claim C9 at bitmask 1 and color 32. -/
theorem ownedColors_witness :
    32 ∈ getOwnedColorsFromBitmap 1 :=
  ((ownedColors_characterization.1 1).2 32).mpr (by decide)

/-- Witness for claim C10 at a concrete (empty) template. -/
theorem placedPixels_stays_empty_witness :
    getNextPixels [] noChunks [] placedPixels Mode.Scan (fun l => l) 0 =
      getNextPixelsNoPlaced [] noChunks [] Mode.Scan (fun l => l) 0 :=
  placedPixels_stays_empty.2 [] noChunks [] Mode.Scan (fun l => l) 0

end Wplace
